import Mathlib

set_option maxRecDepth 8000

/- Shallow embedding of the indicator-correlation and timeline engine of the
   ai-orchestrated-forensics repository:
     src/src/focused_search.py      (FocusedSearcher)
     src/src/data_processor.py      (DataProcessor.detect_suspicious_patterns)
     src/src/timeline_generator.py  (TimelineGenerator)
     src/src/osint_intelligence.py  (OSINTIntelligence.combine_iocs)
   Python scalar values are modelled by `PyVal`; pandas DataFrames by
   `PandasDF` (row-major, with a dtype per column); Python exceptions by
   `Except PyErr`.  String character classes follow the ASCII behaviour of
   the fixed regular expressions in the source (the inputs appearing in the
   claims are ASCII). -/

inductive PyVal where
| vStr (s : String)
| vInt (n : Int)
| vNone
| vNan
deriving DecidableEq

/-- Python str(value) for the scalar shapes that can appear in a cell. -/
def pyStr : PyVal → String
| .vStr s => s
| .vInt n => toString n
| .vNone => "None"
| .vNan => "nan"

/-- pandas pd.isna on a scalar: None and NaN are missing, everything else is not. -/
def pyIsNa : PyVal → Bool
| .vNone => true
| .vNan => true
| _ => false

/-- ASCII whitespace stripped by Python str.strip() and matched by regex \s. -/
def pySpaceChar (c : Char) : Bool :=
  c == ' ' || c == '\t' || c == '\n' || c == '\r' || c == '\x0b' || c == '\x0c'

def lowerChars (l : List Char) : List Char := l.map Char.toLower

def stripChars (l : List Char) : List Char :=
  ((l.dropWhile pySpaceChar).reverse.dropWhile pySpaceChar).reverse

/-- Python str.lower() (ASCII). -/
def pyLowerStr (s : String) : String := ⟨lowerChars s.data⟩

/-- ioc.lower().strip(): the normalisation used both by
OSINTIntelligence.combine_iocs and FocusedSearcher._normalize_ioc. -/
def pyKey (s : String) : String := ⟨stripChars (lowerChars s.data)⟩

def isPrefixOfChars : List Char → List Char → Bool
| [], _ => true
| _ :: _, [] => false
| a :: as, b :: bs => a == b && isPrefixOfChars as bs

def containsChars (needle : List Char) : List Char → Bool
| [] => isPrefixOfChars needle []
| c :: t => isPrefixOfChars needle (c :: t) || containsChars needle t

/-- Python `needle in hay` / re.search of an escaped literal. -/
def pyContains (hay needle : String) : Bool := containsChars needle.data hay.data

/-- Suffix of the haystack that follows the first occurrence of `needle`
(used to decide containment of the regexes of the form `a.*b`). -/
def suffixAfterFirst (needle : List Char) : List Char → Option (List Char)
| [] => if isPrefixOfChars needle [] then some [] else none
| c :: t =>
  if isPrefixOfChars needle (c :: t) then some ((c :: t).drop needle.length)
  else suffixAfterFirst needle t

/-- Containment of the regex `a.*b` (for newline-free haystacks, which is the
only way these fixed path patterns are exercised: `.` does not match a
newline, and the cell values under scrutiny are single-line). -/
def containsSeqChars (a b hay : List Char) : Bool :=
  match suffixAfterFirst a hay with
  | some rest => containsChars b rest
  | none => false

def pyEndsWith (s suffix : String) : Bool :=
  isPrefixOfChars suffix.data.reverse s.data.reverse

/- ---------- FocusedSearcher indicator classification (lines 34-53, 94-105) ---------- -/

/-- Python regex \d (ASCII digits; the fixed patterns are only exercised on
ASCII data in this development). -/
def isDigitChar (c : Char) : Bool := c.isDigit

def isAlphaChar (c : Char) : Bool := c.isAlpha

def isAlnumChar (c : Char) : Bool := c.isAlpha || c.isDigit

def splitOnChar (sep : Char) : List Char → List (List Char)
| [] => [[]]
| c :: t =>
  let r := splitOnChar sep t
  if c == sep then [] :: r
  else
    match r with
    | [] => [[c]]
    | h :: t2 => (c :: h) :: t2

/-- re.match(p) where p ends in `$`: the anchor also matches just before a
single trailing newline.  None of the character classes used by the
classifier patterns accepts a newline, so this is the exact semantics. -/
def withTrailingNewline (core : List Char → Bool) (l : List Char) : Bool :=
  core l || (if l.getLast? == some '\n' then core l.dropLast else false)

def ipGroupOk (g : List Char) : Bool :=
  decide (1 ≤ g.length) && decide (g.length ≤ 3) && g.all isDigitChar

/-- ^\d{1,3}\.\d{1,3}\.\d{1,3}\.\d{1,3}$ -/
def ipCore (l : List Char) : Bool :=
  match splitOnChar '.' l with
  | [a, b, c, d] => ipGroupOk a && ipGroupOk b && ipGroupOk c && ipGroupOk d
  | _ => false

def is_ip_address (s : String) : Bool := withTrailingNewline ipCore s.data

def hexLowerChar (c : Char) : Bool := c.isDigit || (decide ('a' ≤ c) && decide (c ≤ 'f'))

/-- ^[a-f0-9]{32}$|^[a-f0-9]{40}$|^[a-f0-9]{64}$ -/
def hashCore (l : List Char) : Bool :=
  (l.length == 32 || l.length == 40 || l.length == 64) && l.all hexLowerChar

/-- _is_hash applies the pattern to value.lower(). -/
def is_hash (s : String) : Bool := withTrailingNewline hashCore (lowerChars s.data)

def alnumHyphChar (c : Char) : Bool := isAlnumChar c || c == '-'

/-- [a-zA-Z0-9\-]{0,61}[a-zA-Z0-9]: hyphen-or-alnum chain ending in alnum. -/
def labelTail : List Char → Bool
| [] => false
| [c] => isAlnumChar c
| c :: rest => alnumHyphChar c && labelTail rest

/-- [a-zA-Z0-9]([a-zA-Z0-9\-]{0,61}[a-zA-Z0-9])? -/
def labelOk : List Char → Bool
| [] => false
| [c] => isAlnumChar c
| c :: rest => isAlnumChar c && labelTail rest && decide (rest.length ≤ 62)

/-- [a-zA-Z]{2,} -/
def tldOk (l : List Char) : Bool := decide (2 ≤ l.length) && l.all isAlphaChar

/-- ^label(\.label)*\.[a-zA-Z]{2,}$ (labels contain no dot, so the match
decomposition coincides with splitting the string at its dots). -/
def domainCore (l : List Char) : Bool :=
  let parts := splitOnChar '.' l
  match parts.getLast? with
  | some tld => decide (2 ≤ parts.length) && parts.dropLast.all labelOk && tldOk tld
  | none => false

def is_domain (s : String) : Bool := withTrailingNewline domainCore s.data

def localChar (c : Char) : Bool :=
  isAlnumChar c || c == '.' || c == '_' || c == '%' || c == '+' || c == '-'

def emailDomChar (c : Char) : Bool := isAlnumChar c || c == '-'

/-- [a-zA-Z0-9.-]+\.[a-zA-Z]{2,}: the all-alpha part must follow the last
dot (it cannot contain a dot itself), and the part before that last dot must
be non-empty. -/
def emailDomCore (l : List Char) : Bool :=
  let parts := splitOnChar '.' l
  match parts.getLast? with
  | some tld =>
      decide (2 ≤ parts.length) && tldOk tld &&
      parts.dropLast.all (fun p => p.all emailDomChar) &&
      !(parts.dropLast == [([] : List Char)])
  | none => false

/-- ^[a-zA-Z0-9._%+-]+@[a-zA-Z0-9.-]+\.[a-zA-Z]{2,}$ (neither side of the
pattern accepts an @, so the string must contain exactly one @). -/
def emailCore (l : List Char) : Bool :=
  match splitOnChar '@' l with
  | [loc, dom] => !loc.isEmpty && loc.all localChar && emailDomCore dom
  | _ => false

def is_email (s : String) : Bool := withTrailingNewline emailCore s.data

def executableSuffixes : List String := [".exe", ".dll", ".bat", ".cmd", ".ps1", ".vbs", ".scr"]

/-- The ioc_type classification performed in search_dataframe (lines 94-105):
first rule that applies wins, on the raw (unnormalised) indicator. -/
def ioc_type_of (ioc : String) : String :=
  if is_ip_address ioc then "ip_address"
  else if is_hash ioc then "hash"
  else if is_domain ioc then "domain"
  else if is_email ioc then "email"
  else if executableSuffixes.any (fun suf => pyEndsWith ioc suf) then "executable"
  else "unknown"

/- ---------- OSINTIntelligence.combine_iocs (lines 207-227) ---------- -/

/-- The dedup loop of combine_iocs: `seen` holds the normalised keys already
kept; an entry is retained when its key is non-empty and unseen. -/
def combineGo : List String → List String → List String
| [], _ => []
| ioc :: rest, seen =>
  let k := pyKey ioc
  if k ≠ "" ∧ k ∉ seen then ioc :: combineGo rest (k :: seen)
  else combineGo rest seen

def combine_iocs (known osint : List String) : List String :=
  combineGo (known ++ osint) []

example : is_ip_address "8.8.8.8" = true := by decide
example : is_hash "d41d8cd98f00b204e9800998ecf8427e" = true := by decide
example : is_domain "evil.example.com" = true := by decide
example : is_domain "payload.exe" = true := by decide
example : is_email "a@b.com" = true := by decide
example : ioc_type_of "payload.exe" = "domain" := by decide
example : ioc_type_of "randomtoken123" = "unknown" := by decide
example : combine_iocs ["A", " a", ""] ["b", "B "] = ["A", "b"] := by decide

/- ---------- pandas DataFrame model ---------- -/

inductive DType where
| obj
| int64
deriving DecidableEq

/-- Row-major DataFrame with a default RangeIndex 0..rows.length-1, a name
and a dtype per column.  Cells are addressed positionally with getD so that
no well-formedness side conditions are needed. -/
structure PandasDF where
  colNames : List String
  dtypes : List DType
  rows : List (List PyVal)

inductive PyErr where
| attributeError
| keyError
| recursionError
deriving DecidableEq

/-- The per-object-column normalisation `astype(str).str.lower()` applied by
both search_dataframe and detect_suspicious_patterns; non-object columns are
left untouched. -/
def lowerVal (dt : DType) (v : PyVal) : PyVal :=
  if dt = DType.obj then .vStr (pyLowerStr (pyStr v)) else v

def lowerRow (dts : List DType) (row : List PyVal) : List PyVal :=
  List.zipWith lowerVal dts row

def lowerRowsOf (df : PandasDF) : List (List PyVal) :=
  df.rows.map (lowerRow df.dtypes)

def colCell (lrows : List (List PyVal)) (r c : Nat) : PyVal :=
  (lrows.getD r []).getD c .vNan

/-- Elementwise `series == ioc_normalized`: a non-string cell compared with a
string is simply False in pandas (no error). -/
def cellEqStr (v : PyVal) (s : String) : Bool :=
  match v with
  | .vStr t => t == s
  | _ => false

def cellContainsStr (v : PyVal) (s : String) : Bool :=
  match v with
  | .vStr t => containsChars s.data t.data
  | _ => false

/- ---------- FocusedSearcher.search_dataframe (lines 55-118) ---------- -/

structure IocMatch where
  source : String
  ioc : String
  iocType : String
  matchType : String
  column : String
  rowIndex : Nat
  matchedValue : String
  fullRow : List PyVal
deriving DecidableEq

/-- Row labels of df_lower[df_lower[col] == key] in index order. -/
def exactIdxs (lrows : List (List PyVal)) (c : Nat) (key : String) : List Nat :=
  (List.range lrows.length).filter (fun r => cellEqStr (colCell lrows r c) key)

/-- Row labels of df_lower[df_lower[col].str.contains(re.escape(key), na=False)]. -/
def containIdxs (lrows : List (List PyVal)) (c : Nat) (key : String) : List Nat :=
  (List.range lrows.length).filter (fun r => cellContainsStr (colCell lrows r c) key)

/-- pd.concat([...]).drop_duplicates(): keeps the first listed row of each
distinct row VALUE (the index label plays no role in the comparison). -/
def dedupKeep (lrows : List (List PyVal)) : List Nat → List (List PyVal) → List Nat
| [], _ => []
| r :: rest, seen =>
  let v := lrows.getD r []
  if v ∈ seen then dedupKeep lrows rest seen
  else r :: dedupKeep lrows rest (v :: seen)

/-- The surviving row labels of pd.concat([exact, partial]).drop_duplicates()
for one (ioc, column) pair. -/
def keptRows (lrows : List (List PyVal)) (c : Nat) (key : String) : List Nat :=
  dedupKeep lrows (exactIdxs lrows c key ++ containIdxs lrows c key) []

/-- The match dictionary appended for one surviving row (lines 107-116);
match_type is "exact" when the row label sits in the exact-match index. -/
def mkMatch (src ioc key colName : String) (lrows : List (List PyVal))
    (c r : Nat) : IocMatch :=
  { source := src
    ioc := ioc
    iocType := ioc_type_of ioc
    matchType := if r ∈ exactIdxs lrows c key then "exact" else "partial"
    column := colName
    rowIndex := r
    matchedValue := pyStr (colCell lrows r c)
    fullRow := lrows.getD r [] }

/-- The body of the per-(ioc, column) iteration of search_dataframe.  The
exact-match frame is computed first (a non-string column compares all-False
without error); the partial match then applies the .str accessor, which
raises AttributeError on a non-object column. -/
def searchIocCol (src ioc key colName : String) (dt : DType)
    (lrows : List (List PyVal)) (c : Nat) : Except PyErr (List IocMatch) :=
  if dt ≠ DType.obj then .error .attributeError
  else .ok ((keptRows lrows c key).map (mkMatch src ioc key colName lrows c))

/-- Iteration over df_lower.columns, keeping the running column position. -/
def searchColsFrom (src ioc key : String) (lrows : List (List PyVal)) :
    Nat → List (String × DType) → Except PyErr (List IocMatch)
| _, [] => .ok []
| c, (nm, dt) :: rest => do
  let ms ← searchIocCol src ioc key nm dt lrows c
  let more ← searchColsFrom src ioc key lrows (c + 1) rest
  .ok (ms ++ more)

/-- Iteration over the indicator list (an indicator whose normalisation is
empty is skipped before any column is touched). -/
def searchIocs (src : String) (lrows : List (List PyVal))
    (cols : List (String × DType)) : List String → Except PyErr (List IocMatch)
| [] => .ok []
| ioc :: rest =>
  let key := pyKey ioc
  if key = "" then searchIocs src lrows cols rest
  else do
    let ms ← searchColsFrom src ioc key lrows 0 cols
    let more ← searchIocs src lrows cols rest
    .ok (ms ++ more)

def search_dataframe (iocs : List String) (df : PandasDF) (src : String) :
    Except PyErr (List IocMatch) :=
  searchIocs src (lowerRowsOf df) (df.colNames.zip df.dtypes) iocs

/-- FocusedSearcher.search_all (lines 120-150): sources are scanned in Record
Store order; a source with no matches is dropped from the result mapping; an
exception from one source aborts the whole sweep. -/
def search_all (iocs : List String) :
    List (String × PandasDF) → Except PyErr (List (String × List IocMatch))
| [] => .ok []
| (nm, df) :: rest => do
  let ms ← search_dataframe iocs df nm
  let more ← search_all iocs rest
  .ok (if ms.isEmpty then more else (nm, ms) :: more)

/- ---------- DataProcessor.detect_suspicious_patterns (lines 47-113) ---------- -/

structure Anomaly where
  source : String
  atype : String
  severity : String
  column : String
  value : String
  rowIndex : Nat
  description : String
deriving DecidableEq

inductive PathPat where
| lit (s : String)
| seq (a b : String)
deriving DecidableEq

/-- str.contains(pattern, regex=True) for the fixed suspicious-path patterns:
they are either literals or of the shape `a.*b`. -/
def pathPatContains (p : PathPat) (s : String) : Bool :=
  match p with
  | .lit q => containsChars q.data s.data
  | .seq a b => containsSeqChars a.data b.data s.data

def executable_extensions : List String :=
  [".exe", ".dll", ".bat", ".cmd", ".ps1", ".vbs", ".scr", ".com"]

def suspicious_keywords : List String :=
  ["malware", "trojan", "virus", "backdoor", "keylogger",
   "ransomware", "rootkit", "exploit", "payload", "shellcode"]

def suspicious_paths : List PathPat :=
  [.lit "temp", .lit "tmp", .lit "appdata", .seq "local" "temp",
   .lit "programdata", .seq "windows" "system32", .lit "syswow64"]

/-- (position, name) of the object-dtype columns, in column order
(select_dtypes(include=['object']).columns). -/
def objColumns (df : PandasDF) : List (Nat × String) :=
  ((List.range df.colNames.length).map
    (fun c => (c, df.colNames.getD c ""))).filter
    (fun p => df.dtypes.getD p.1 DType.obj == DType.obj)

/-- One rule family: for every object column, for every pattern of the
family, one Anomaly per matching row, in (column, pattern, row) order. -/
def detectFamily (src : String) (lrows : List (List PyVal))
    (cols : List (Nat × String)) (pats : List PathPat)
    (atype severity : String) (descr : PathPat → String → String) : List Anomaly :=
  cols.flatMap (fun cn =>
    pats.flatMap (fun p =>
      ((List.range lrows.length).filter
        (fun r => pathPatContains p (pyStr (colCell lrows r cn.1)))).map
        (fun r =>
          { source := src
            atype := atype
            severity := severity
            column := cn.2
            value := pyStr (colCell lrows r cn.1)
            rowIndex := r
            description := descr p cn.2 })))

def detect_suspicious_patterns (df : PandasDF) (src : String) : List Anomaly :=
  let lrows := lowerRowsOf df
  let cols := objColumns df
  detectFamily src lrows cols (executable_extensions.map PathPat.lit)
    "suspicious_extension" "medium"
    (fun p col =>
      "Found suspicious extension " ++
        (match p with | .lit q => q | .seq a b => a ++ ".*" ++ b) ++ " in " ++ col)
  ++ detectFamily src lrows cols (suspicious_keywords.map PathPat.lit)
    "suspicious_keyword" "high"
    (fun p col =>
      "Found suspicious keyword " ++ Char.toString '\x27' ++
        (match p with | .lit q => q | .seq a b => a ++ ".*" ++ b) ++
        Char.toString '\x27' ++ " in " ++ col)
  ++ detectFamily src lrows cols suspicious_paths
    "suspicious_path" "medium"
    (fun _ col => "Found suspicious path pattern in " ++ col)

def dfScenario : PandasDF :=
  { colNames := ["command_line"]
    dtypes := [DType.obj]
    rows := [[PyVal.vStr "C:\\Users\\a\\AppData\\Local\\Temp\\payload.exe"]] }

example :
    ((detect_suspicious_patterns dfScenario "process_list").filter
      (fun a => a.atype == "suspicious_path")).length = 3 := by decide
example :
    ((detect_suspicious_patterns dfScenario "process_list").filter
      (fun a => a.atype == "suspicious_extension")).length = 1 := by decide
example :
    (search_dataframe ["payload.exe"] dfScenario "process_list").map
      (fun l => l.map (fun m => (m.matchType, m.iocType))) =
    .ok [("partial", "domain")] := by rfl

/- ---------- TimelineGenerator._extract_timestamp (lines 26-87) ---------- -/

/-- Regex atoms used by the six timestamp patterns: \d{k}, a literal
character, and \s+ (greedy; in every pattern the token after \s+ is a digit,
so consuming the whole whitespace run is the exact backtracking behaviour). -/
inductive Tok where
| ds (k : Nat)
| ch (c : Char)
| ws
deriving DecidableEq

def takeCount (p : Char → Bool) : Nat → List Char → Option (List Char × List Char)
| 0, s => some ([], s)
| _ + 1, [] => none
| k + 1, c :: t =>
  if p c then (takeCount p k t).map (fun pr => (c :: pr.1, pr.2)) else none

def consumeTok : Tok → List Char → Option (List Char × List Char)
| .ds k, s => takeCount isDigitChar k s
| .ch c, s =>
  match s with
  | x :: r => if x == c then some ([c], r) else none
  | [] => none
| .ws, s =>
  let w := s.takeWhile pySpaceChar
  if w.isEmpty then none else some (w, s.drop w.length)

def runToks : List Tok → List Char → Option (List Char × List Char)
| [], s => some ([], s)
| t :: ts, s =>
  match consumeTok t s with
  | none => none
  | some (m1, r1) => (runToks ts r1).map (fun pr => (m1 ++ pr.1, pr.2))

/-- re.search: the leftmost start position at which the pattern matches;
returns the matched text (= group(1) of the source patterns). -/
def searchToks (ts : List Tok) : List Char → Option (List Char)
| [] => (runToks ts []).map Prod.fst
| c :: rest =>
  match runToks ts (c :: rest) with
  | some pr => some pr.1
  | none => searchToks ts rest

def tsPat1 : List Tok :=
  [.ds 4, .ch '-', .ds 2, .ch '-', .ds 2, .ws, .ds 2, .ch ':', .ds 2, .ch ':', .ds 2]
def tsPat2 : List Tok :=
  [.ds 2, .ch '/', .ds 2, .ch '/', .ds 4, .ws, .ds 2, .ch ':', .ds 2, .ch ':', .ds 2]
def tsPat3 : List Tok :=
  [.ds 4, .ch '-', .ds 2, .ch '-', .ds 2, .ch 'T', .ds 2, .ch ':', .ds 2, .ch ':', .ds 2]
def tsPat4 : List Tok :=
  [.ds 2, .ch '-', .ds 2, .ch '-', .ds 4, .ws, .ds 2, .ch ':', .ds 2, .ch ':', .ds 2]
def tsPat5 : List Tok := [.ds 10]
def tsPat6 : List Tok := [.ds 13]

def tsPatterns : List (List Tok) := [tsPat1, tsPat2, tsPat3, tsPat4, tsPat5, tsPat6]

/- datetime.strptime for the four fixed formats, following CPython's
_strptime field regexes: %Y = \d\d\d\d, %m = (1[0-2]|0[1-9]|[1-9]),
%d = (3[01]|[12]\d|0[1-9]|[1-9]), %H = (2[0-3]|[01]\d|\d),
%M = %S = ([0-5]\d|\d); literal whitespace in the format matches \s+ and the
whole string must be consumed. -/

inductive FItem where
| fy4
| fm
| fd
| fH
| fMS
| lit (c : Char)
| wsp
deriving DecidableEq

def digitVal (c : Char) : Nat := c.toNat - '0'.toNat

def twoDigitAlt (ok : Char → Char → Bool) : List Char → List (Nat × List Char)
| d1 :: d2 :: r => if ok d1 d2 then [(digitVal d1 * 10 + digitVal d2, r)] else []
| _ => []

def oneDigitAlt (ok : Char → Bool) : List Char → List (Nat × List Char)
| d :: r => if ok d then [(digitVal d, r)] else []
| _ => []

def fieldAlts : FItem → List Char → List (Nat × List Char)
| .fy4, d1 :: d2 :: d3 :: d4 :: r =>
  if isDigitChar d1 && isDigitChar d2 && isDigitChar d3 && isDigitChar d4 then
    [(digitVal d1 * 1000 + digitVal d2 * 100 + digitVal d3 * 10 + digitVal d4, r)]
  else []
| .fy4, _ => []
| .fm, s =>
  twoDigitAlt (fun d1 d2 =>
    (d1 == '1' && (d2 == '0' || d2 == '1' || d2 == '2')) ||
    (d1 == '0' && isDigitChar d2 && d2 != '0')) s ++
  oneDigitAlt (fun d => isDigitChar d && d != '0') s
| .fd, s =>
  twoDigitAlt (fun d1 d2 =>
    (d1 == '3' && (d2 == '0' || d2 == '1')) ||
    ((d1 == '1' || d1 == '2') && isDigitChar d2) ||
    (d1 == '0' && isDigitChar d2 && d2 != '0')) s ++
  oneDigitAlt (fun d => isDigitChar d && d != '0') s
| .fH, s =>
  twoDigitAlt (fun d1 d2 =>
    (d1 == '2' && (d2 == '0' || d2 == '1' || d2 == '2' || d2 == '3')) ||
    ((d1 == '0' || d1 == '1') && isDigitChar d2)) s ++
  oneDigitAlt isDigitChar s
| .fMS, s =>
  twoDigitAlt (fun d1 d2 => decide ('0' ≤ d1) && decide (d1 ≤ '5') && isDigitChar d2) s ++
  oneDigitAlt isDigitChar s
| .lit _, _ => []
| .wsp, _ => []

/-- Sequential matching of a compiled strptime format with the regex
engine's backtracking over a field's alternatives (every field regex above
has at most two alternatives, tried left to right); the whole string must be
consumed, as _strptime rejects unconverted trailing data. -/
def parseItems : List FItem → List Char → Option (List Nat)
| [], [] => some []
| [], _ :: _ => none
| .lit c :: rest, x :: r => if x == c then parseItems rest r else none
| .lit _ :: _, [] => none
| .wsp :: rest, s2 =>
  let w := s2.takeWhile pySpaceChar
  if w.isEmpty then none else parseItems rest (s2.drop w.length)
| it :: rest, s2 =>
  match fieldAlts it s2 with
  | [] => none
  | [(v, r1)] => (parseItems rest r1).map (v :: ·)
  | (v1, r1) :: (v2, r2) :: _ =>
    match parseItems rest r1 with
    | some vs => some (v1 :: vs)
    | none => (parseItems rest r2).map (v2 :: ·)

def fmtItems1 : List FItem :=
  [.fy4, .lit '-', .fm, .lit '-', .fd, .wsp, .fH, .lit ':', .fMS, .lit ':', .fMS]
def fmtItems2 : List FItem :=
  [.fm, .lit '/', .fd, .lit '/', .fy4, .wsp, .fH, .lit ':', .fMS, .lit ':', .fMS]
def fmtItems3 : List FItem :=
  [.fy4, .lit '-', .fm, .lit '-', .fd, .lit 'T', .fH, .lit ':', .fMS, .lit ':', .fMS]
def fmtItems4 : List FItem :=
  [.fd, .lit '-', .fm, .lit '-', .fy4, .wsp, .fH, .lit ':', .fMS, .lit ':', .fMS]

def isLeap (y : Nat) : Bool := (y % 4 == 0 && y % 100 != 0) || y % 400 == 0

def daysInMonth (y m : Nat) : Nat :=
  if m == 2 then (if isLeap y then 29 else 28)
  else if m == 4 || m == 6 || m == 9 || m == 11 then 30
  else 31

def pad2 (n : Nat) : String := if n < 10 then "0" ++ toString n else toString n

def pad4 (n : Nat) : String :=
  if n < 10 then "000" ++ toString n
  else if n < 100 then "00" ++ toString n
  else if n < 1000 then "0" ++ toString n
  else toString n

/-- strftime('%Y-%m-%d %H:%M:%S'). -/
def fmtCanon (y m d hh mi ss : Nat) : String :=
  pad4 y ++ "-" ++ pad2 m ++ "-" ++ pad2 d ++ " " ++
    pad2 hh ++ ":" ++ pad2 mi ++ ":" ++ pad2 ss

/-- datetime(...) construction: the field regexes already bound month, hour,
minute and second; the constructor additionally rejects year 0 and a day
beyond the month's length. -/
def mkDate (y m d hh mi ss : Nat) : Option String :=
  if 1 ≤ y ∧ 1 ≤ d ∧ d ≤ daysInMonth y m then some (fmtCanon y m d hh mi ss) else none

def tryFmt1 (s : List Char) : Option String :=
  match parseItems fmtItems1 s with
  | some [y, m, d, hh, mi, ss] => mkDate y m d hh mi ss
  | _ => none

def tryFmt2 (s : List Char) : Option String :=
  match parseItems fmtItems2 s with
  | some [m, d, y, hh, mi, ss] => mkDate y m d hh mi ss
  | _ => none

def tryFmt3 (s : List Char) : Option String :=
  match parseItems fmtItems3 s with
  | some [y, m, d, hh, mi, ss] => mkDate y m d hh mi ss
  | _ => none

def tryFmt4 (s : List Char) : Option String :=
  match parseItems fmtItems4 s with
  | some [d, m, y, hh, mi, ss] => mkDate y m d hh mi ss
  | _ => none

/-- The inner `for fmt in [...]` loop: the four formats are attempted in
order on the matched group regardless of which pattern produced it. -/
def strptimeChain (s : List Char) : Option String :=
  match tryFmt1 s with
  | some r => some r
  | none =>
    match tryFmt2 s with
    | some r => some r
    | none =>
      match tryFmt3 s with
      | some r => some r
      | none => tryFmt4 s

def digitsToNat (l : List Char) : Nat := l.foldl (fun a c => a * 10 + digitVal c) 0

/-- Gregorian date from days since 1970-01-01 (non-negative). -/
def civilFromDays (z : Nat) : Nat × Nat × Nat :=
  let doe := (z + 719468) % 146097
  let era := (z + 719468) / 146097
  let yoe := (doe - doe / 1460 + doe / 36524 - doe / 146096) / 365
  let y := yoe + era * 400
  let doy := doe - (365 * yoe + yoe / 4 - yoe / 100)
  let mp := (5 * doy + 2) / 153
  let d := doy - (153 * mp + 2) / 5 + 1
  let m := if mp < 10 then mp + 3 else mp - 9
  (if m ≤ 2 then y + 1 else y, m, d)

/-- datetime.fromtimestamp(t).strftime('%Y-%m-%d %H:%M:%S').  fromtimestamp
renders local time; the model fixes the offset at UTC (no claim depends on
the rendered value of an epoch timestamp). -/
def epochToStr (t : Nat) : String :=
  let days := t / 86400
  let secs := t % 86400
  let ymd := civilFromDays days
  fmtCanon ymd.1 ymd.2.1 ymd.2.2 (secs / 3600) (secs % 3600 / 60) (secs % 60)

/-- The body run on a matched group: ts_str.isdigit() routes 10/13-digit
groups to the epoch branch (a 13-digit group is divided by 1000); everything
else goes through the strptime chain; None means "try the next pattern". -/
def handleTsGroup (g : List Char) : Option String :=
  if !g.isEmpty && g.all isDigitChar then
    if g.length == 13 then some (epochToStr (digitsToNat g / 1000))
    else some (epochToStr (digitsToNat g))
  else strptimeChain g

def tsPatternGo : List (List Tok) → List Char → Option String
| [], _ => none
| p :: ps, l =>
  match searchToks p l with
  | some g =>
    match handleTsGroup g with
    | some r => some r
    | none => tsPatternGo ps l
  | none => tsPatternGo ps l

/-- The pattern loop of _extract_timestamp on str(value): first pattern that
matches and parses wins. -/
def tsPatternExtract (s : String) : Option String := tsPatternGo tsPatterns s.data

def timestamp_cols : List String :=
  ["timestamp", "time", "date", "datetime", "created", "modified",
   "last_accessed", "last_modified", "event_time", "log_time"]

def event_id_cols : List String := ["event_id", "eventid", "event id", "id", "eventid_value"]

def account_cols : List String :=
  ["account", "user", "username", "user_name", "account_name",
   "subject_user_name", "target_user_name", "logon_account"]

def device_cols : List String :=
  ["device", "computer", "hostname", "host_name", "system",
   "machine_name", "computer_name"]

/-- df.at[row, col]: KeyError when either label is absent; the DataFrames of
this pipeline carry the default RangeIndex 0..len-1. -/
def pdAt (df : PandasDF) (r : Nat) (colName : String) : Except PyErr PyVal :=
  match df.colNames.findIdx? (· == colName) with
  | none => .error .keyError
  | some c =>
    if r < df.rows.length then .ok ((df.rows.getD r []).getD c .vNan)
    else .error .keyError

/-- The shared "first alias column present with a non-missing value" lookup
of _extract_event_id / _extract_account / _extract_device_name. -/
def extractByCols (df : PandasDF) (r : Nat) : List String → Except PyErr (Option String)
| [] => .ok none
| col :: rest =>
  if df.colNames.contains col then do
    let v ← pdAt df r col
    if pyIsNa v then extractByCols df r rest else .ok (some (pyStr v))
  else extractByCols df r rest

/-- The fallback loop of _extract_timestamp (lines 78-86): the first
conventional timestamp column present whose cell is non-missing; its value
is handed to a recursive re-extraction. -/
def firstFallback (df : PandasDF) (r : Nat) : List String → Except PyErr (Option PyVal)
| [] => .ok none
| col :: rest =>
  if df.colNames.contains col then do
    let v ← pdAt df r col
    if pyIsNa v then firstFallback df r rest else .ok (some v)
  else firstFallback df r rest

/-- _extract_timestamp.  The Python recursion depth is modelled by fuel;
running out of fuel is the interpreter's RecursionError. -/
def extract_timestamp : Nat → PyVal → PandasDF → Nat → Except PyErr (Option String)
| 0, _, _, _ => .error .recursionError
| fuel + 1, value, df, r =>
  if pyIsNa value || value == PyVal.vStr "" then .ok none
  else
    match tsPatternExtract (pyStr value) with
    | some ts => .ok (some ts)
    | none => do
      match ← firstFallback df r timestamp_cols with
      | some v => extract_timestamp fuel v df r
      | none => .ok none

/- ---------- TimelineGenerator._identify_artifact_type (lines 89-129) ---------- -/

def joinSpace : List String → String
| [] => ""
| [s] => s
| s :: rest => s ++ " " ++ joinSpace rest

def identify_artifact_type (src : String) (df : PandasDF) : String :=
  let sl := pyLowerStr src
  let cj := joinSpace (df.colNames.map pyLowerStr)
  if pyContains sl "amcache" || pyContains cj "amcache" then "Amcache"
  else if pyContains sl "prefetch" || pyContains cj "prefetch" then "Prefetch"
  else if pyContains sl "shimcache" || pyContains cj "shimcache" then "Shimcache"
  else if pyContains sl "event" && pyContains sl "log" then "Event Log"
  else if pyContains sl "sysmon" then "Sysmon Event Log"
  else if pyContains sl "security" && pyContains sl "log" then "Security Event Log"
  else if pyContains sl "application" && pyContains sl "log" then "Application Event Log"
  else if pyContains sl "system" && pyContains sl "log" then "System Event Log"
  else if pyContains sl "process" then "Process List"
  else if pyContains sl "network" || pyContains sl "connection" then "Network Connection"
  else if pyContains sl "file" then "File System"
  else if pyContains sl "registry" then "Registry"
  else src

/- ---------- TimelineGenerator.add_from_ioc_match / add_from_anomaly ---------- -/

structure MatchDict where
  rowIndex : Option Nat
  ioc : Option String
  iocType : Option String
  column : Option String
  matchedValue : Option String
deriving DecidableEq

structure AnomalyDict where
  rowIndex : Option Nat
  description : Option String
  atype : Option String
  column : Option String
deriving DecidableEq

structure TimelineEntry where
  timestamp : String
  deviceName : String
  account : String
  event : String
  artifact : String
  eventId : String
  analyst : String
  comments : String
  level : String
deriving DecidableEq

/-- add_from_ioc_match (lines 163-201).  Note that the timestamp extraction
is invoked with value=None; the extraction helpers touch df.at and may raise;
the new entry is appended to the accumulated timeline_entries. -/
def add_from_ioc_match (fuel : Nat) (entries : List TimelineEntry) (m : MatchDict)
    (df : PandasDF) (srcName analyst : String) : Except PyErr (List TimelineEntry) :=
  match m.rowIndex with
  | none => .ok entries
  | some r => do
    let ts ← extract_timestamp fuel PyVal.vNone df r
    let dev ← extractByCols df r device_cols
    let acct ← extractByCols df r account_cols
    let artifact := identify_artifact_type srcName df
    let eid ← extractByCols df r event_id_cols
    let ioc := m.ioc.getD "Unknown IOC"
    let column := m.column.getD "Unknown column"
    let mv := m.matchedValue.getD "Unknown value"
    .ok (entries ++ [{
      timestamp := ts.getD ""
      deviceName := dev.getD ""
      account := acct.getD ""
      event := "IOC Match: " ++ ioc ++ " found in " ++ column ++ ": " ++ mv
      artifact := artifact
      eventId := eid.getD ""
      analyst := analyst
      comments := "Matched IOC (" ++ m.iocType.getD "unknown" ++ ") in " ++ column
      level := "Suspicious" }])

/-- add_from_anomaly (lines 248-281), same structure as add_from_ioc_match. -/
def add_from_anomaly (fuel : Nat) (entries : List TimelineEntry) (a : AnomalyDict)
    (df : PandasDF) (srcName analyst : String) : Except PyErr (List TimelineEntry) :=
  match a.rowIndex with
  | none => .ok entries
  | some r => do
    let ts ← extract_timestamp fuel PyVal.vNone df r
    let dev ← extractByCols df r device_cols
    let acct ← extractByCols df r account_cols
    let artifact := identify_artifact_type srcName df
    let eid ← extractByCols df r event_id_cols
    .ok (entries ++ [{
      timestamp := ts.getD ""
      deviceName := dev.getD ""
      account := acct.getD ""
      event := a.description.getD "Pattern-based anomaly detected"
      artifact := artifact
      eventId := eid.getD ""
      analyst := analyst
      comments := "Detected " ++ a.atype.getD "unknown" ++ " pattern in " ++
        a.column.getD "unknown"
      level := "Suspicious" }])

example : tsPatternExtract "Event occurred 2024-03-15 10:22:05 on host" =
    some "2024-03-15 10:22:05" := by decide
example : tsPatternExtract "hello" = none := by decide
example : tsPatternExtract "2024-13-45 99:99:99" = none := by decide
example : tsPatternExtract "15-03-2024 10:00:00" = some "2024-03-15 10:00:00" := by decide

/- ---------- Concrete fixtures used by the claim theorems ---------- -/

/-- A source whose row carries a conventional `timestamp` column holding a
canonically formatted timestamp. -/
def dfTsCol : PandasDF :=
  { colNames := ["timestamp"]
    dtypes := [DType.obj]
    rows := [[PyVal.vStr "2024-03-15 10:22:05"]] }

def mTsCol : MatchDict :=
  { rowIndex := some 0
    ioc := some "evil.exe"
    iocType := some "executable"
    column := some "timestamp"
    matchedValue := some "2024-03-15 10:22:05" }

/-- A source with a numeric (int64) column, as produced by pandas CSV
ingestion for an all-integer column. -/
def dfNet : PandasDF :=
  { colNames := ["port"]
    dtypes := [DType.int64]
    rows := [[PyVal.vInt 4444]] }

/-- A source with a conventional device column but only one row. -/
def dfDevice : PandasDF :=
  { colNames := ["computer"]
    dtypes := [DType.obj]
    rows := [[PyVal.vStr "HOST1"]] }

def mOutOfBounds : MatchDict :=
  { rowIndex := some 5
    ioc := some "evil.exe"
    iocType := some "executable"
    column := some "computer"
    matchedValue := some "HOST1" }

/-- A source whose `timestamp` fallback column holds a non-missing value with
no recognizable timestamp pattern. -/
def dfBadTs : PandasDF :=
  { colNames := ["timestamp"]
    dtypes := [DType.obj]
    rows := [[PyVal.vStr "hello"]] }

/-- Two distinct rows with identical cell contents. -/
def dfDup : PandasDF :=
  { colNames := ["filename"]
    dtypes := [DType.obj]
    rows := [[PyVal.vStr "payload.exe"], [PyVal.vStr "payload.exe"]] }

/- ---------- Claim theorems (concrete parts) ---------- -/

/-- C1: refuted on the code — add_from_ioc_match invokes _extract_timestamp
with value=None, and pd.isna(None) makes it return None before the fallback
column scan is ever reached, so the appended entry's Timestamp is the empty
string even though the row's `timestamp` column holds a value that the
pattern extraction itself (second conjunct) parses to canonical form. -/
theorem C1_ts_lost (fuel : Nat) :
    add_from_ioc_match (fuel + 1) [] mTsCol dfTsCol "process_list" "Analyst Z" =
      .ok [{ timestamp := ""
             deviceName := ""
             account := ""
             event := "IOC Match: evil.exe found in timestamp: 2024-03-15 10:22:05"
             artifact := "Process List"
             eventId := ""
             analyst := "Analyst Z"
             comments := "Matched IOC (executable) in timestamp"
             level := "Suspicious" }] ∧
    tsPatternExtract "2024-03-15 10:22:05" = some "2024-03-15 10:22:05" := by
  exact ⟨rfl, by decide⟩

/-- C2: refuted on the code — the partial-match step applies the .str
accessor to every column, and on a non-object (int64) column pandas raises
AttributeError, aborting the whole search_all sweep; the matches already
found in the first source are lost with it. -/
theorem C2_numeric_aborts :
    search_all ["payload.exe"]
      [("process_list", dfScenario), ("network_connections", dfNet)] =
      .error .attributeError ∧
    (search_dataframe ["payload.exe"] dfScenario "process_list").map
      (fun l => l.length) = .ok 1 := by
  exact ⟨rfl, rfl⟩

/-- C3 counterexample: on the spec's end-to-end scenario the detector emits
three suspicious_path anomalies (patterns temp, appdata and local.*temp all
hit), not one, and the single match is partial (the cell merely contains the
indicator) and classified domain (the domain regex accepts payload.exe and
has priority over the executable rule). -/
theorem C3_cex :
    ¬(((detect_suspicious_patterns dfScenario "process_list").filter
        (fun a => a.atype == "suspicious_path")).length = 1) ∧
    ((detect_suspicious_patterns dfScenario "process_list").filter
        (fun a => a.atype == "suspicious_path")).length = 3 ∧
    (search_dataframe ["payload.exe"] dfScenario "process_list").map
      (fun l => l.map (fun m => (m.matchType, m.iocType))) =
      .ok [("partial", "domain")] := by
  exact ⟨by decide, by decide, rfl⟩

/-- C3 amended: the scenario yields exactly one suspicious_extension anomaly
(medium), exactly three suspicious_path anomalies (medium; temp, appdata and
local.*temp), and exactly one Match, which has match_kind partial and
indicator_kind domain. -/
theorem C3_amended :
    ((detect_suspicious_patterns dfScenario "process_list").filter
        (fun a => a.atype == "suspicious_extension")).map
        (fun a => a.severity) = ["medium"] ∧
    ((detect_suspicious_patterns dfScenario "process_list").filter
        (fun a => a.atype == "suspicious_path")).map
        (fun a => a.severity) = ["medium", "medium", "medium"] ∧
    (search_dataframe ["payload.exe"] dfScenario "process_list").map
      (fun l => l.map (fun m => (m.matchType, m.iocType, m.matchedValue))) =
      .ok [("partial", "domain", "c:\\users\\a\\appdata\\local\\temp\\payload.exe")] := by
  exact ⟨by decide, by decide, rfl⟩

/-- C4 counterexample: "payload.exe" is classified domain, not executable —
the RFC-1035-like domain pattern accepts any dotted name whose final segment
is alphabetic and it is tried before the executable-extension rule. -/
theorem C4_cex :
    ioc_type_of "payload.exe" ≠ "executable" ∧
    ioc_type_of "payload.exe" = "domain" := by
  exact ⟨by decide, by decide⟩

/-- C4 amended: classification is a deterministic total function evaluated in
the priority order ip_address, hash, domain, email, executable, unknown
(first rule wins), mapping "8.8.8.8" to ip_address, the MD5 digest to hash,
"evil.example.com" to domain, "a@b.com" to email, "randomtoken123" to
unknown — and "payload.exe" to domain (not executable). -/
theorem C4_amended :
    (∀ s : String,
      (is_ip_address s = true → ioc_type_of s = "ip_address") ∧
      (is_ip_address s = false → is_hash s = true → ioc_type_of s = "hash") ∧
      (is_ip_address s = false → is_hash s = false → is_domain s = true →
        ioc_type_of s = "domain") ∧
      (is_ip_address s = false → is_hash s = false → is_domain s = false →
        is_email s = true → ioc_type_of s = "email") ∧
      (is_ip_address s = false → is_hash s = false → is_domain s = false →
        is_email s = false →
        executableSuffixes.any (fun suf => pyEndsWith s suf) = true →
        ioc_type_of s = "executable") ∧
      (is_ip_address s = false → is_hash s = false → is_domain s = false →
        is_email s = false →
        executableSuffixes.any (fun suf => pyEndsWith s suf) = false →
        ioc_type_of s = "unknown")) ∧
    ioc_type_of "8.8.8.8" = "ip_address" ∧
    ioc_type_of "d41d8cd98f00b204e9800998ecf8427e" = "hash" ∧
    ioc_type_of "evil.example.com" = "domain" ∧
    ioc_type_of "a@b.com" = "email" ∧
    ioc_type_of "payload.exe" = "domain" ∧
    ioc_type_of "randomtoken123" = "unknown" := by
  refine ⟨fun s => ⟨?_, ?_, ?_, ?_, ?_, ?_⟩, by decide, by decide, by decide,
    by decide, by decide, by decide⟩
  all_goals intros
  all_goals simp only [ioc_type_of, *]
  all_goals simp

theorem C4_amended_witness :
    is_ip_address "8.8.8.8" = true ∧ ioc_type_of "8.8.8.8" = "ip_address" :=
  ⟨by decide, (C4_amended.1 "8.8.8.8").1 (by decide)⟩

/-- C6 counterexample: in a Dataset whose two distinct rows have identical
cell contents, row 1 satisfies the exact-match condition yet produces no
Match record — drop_duplicates compares row values, not row identity, so
only the first of the identical rows survives. -/
theorem C6_cex :
    cellEqStr (colCell (lowerRowsOf dfDup) 1 0) (pyKey "payload.exe") = true ∧
    (search_dataframe ["payload.exe"] dfDup "files").map
      (fun l => ((l.filter (fun m => m.rowIndex == 1)).length, l.length)) =
      .ok (0, 1) := by
  exact ⟨by decide, rfl⟩

/-- C7: refuted on the code — with an out-of-bounds row index and a
conventional device column present, df.at[row, col] raises KeyError inside
_extract_device_name and add_from_ioc_match aborts instead of producing an
all-null Finding. -/
theorem C7_keyerror (fuel : Nat) :
    add_from_ioc_match (fuel + 1) [] mOutOfBounds dfDevice "process_list" "Analyst Z" =
      .error .keyError := by
  exact rfl

/-- C8: refuted on the code — when the row's `timestamp` fallback column
holds a non-missing value with no recognizable pattern, _extract_timestamp
re-extracts that same value over and over: every finite recursion budget is
exhausted and the call ends in RecursionError instead of returning null. -/
theorem C8_infinite_recursion (fuel : Nat) :
    extract_timestamp fuel (PyVal.vStr "x") dfBadTs 0 = .error .recursionError := by
  have hello : ∀ n, extract_timestamp n (PyVal.vStr "hello") dfBadTs 0 =
      .error .recursionError := by
    intro n
    induction n with
    | zero => rfl
    | succ k ih =>
      calc extract_timestamp (k + 1) (PyVal.vStr "hello") dfBadTs 0
          = extract_timestamp k (PyVal.vStr "hello") dfBadTs 0 := rfl
        _ = .error .recursionError := ih
  match fuel with
  | 0 => rfl
  | n + 1 =>
    calc extract_timestamp (n + 1) (PyVal.vStr "x") dfBadTs 0
        = extract_timestamp n (PyVal.vStr "hello") dfBadTs 0 := rfl
      _ = .error .recursionError := hello n

/-- C10: a Match or Anomaly dictionary whose row_index is absent/None makes
add_from_ioc_match and add_from_anomaly return with the accumulated
timeline_entries untouched — no entry is appended and no error is raised. -/
theorem C10_frame (fuel : Nat) (entries : List TimelineEntry) (m : MatchDict)
    (a : AnomalyDict) (df : PandasDF) (srcName analyst : String)
    (hm : m.rowIndex = none) (ha : a.rowIndex = none) :
    add_from_ioc_match fuel entries m df srcName analyst = .ok entries ∧
    add_from_anomaly fuel entries a df srcName analyst = .ok entries := by
  constructor
  · simp only [add_from_ioc_match, hm]
  · simp only [add_from_anomaly, ha]

theorem C10_frame_witness :
    ({ rowIndex := none, ioc := some "x", iocType := none, column := none,
       matchedValue := none : MatchDict }).rowIndex = none ∧
    add_from_ioc_match 3 []
      { rowIndex := none, ioc := some "x", iocType := none, column := none,
        matchedValue := none } dfTsCol "process_list" "Analyst Z" = .ok [] :=
  ⟨rfl, (C10_frame 3 []
      { rowIndex := none, ioc := some "x", iocType := none, column := none,
        matchedValue := none }
      { rowIndex := none, description := none, atype := none, column := none }
      dfTsCol "process_list" "Analyst Z" rfl rfl).1⟩

/- ---------- C9: properties of combine_iocs ---------- -/

theorem combineGo_sublist (l : List String) :
    ∀ seen, (combineGo l seen).Sublist l := by
  induction l with
  | nil => intro seen; simp [combineGo]
  | cons ioc rest ih =>
    intro seen
    simp only [combineGo]
    split
    · exact (ih _).cons₂ ioc
    · exact (ih _).cons ioc

theorem combineGo_mem (l : List String) :
    ∀ seen x, x ∈ combineGo l seen → pyKey x ≠ "" ∧ pyKey x ∉ seen := by
  induction l with
  | nil => intro seen x hx; simp [combineGo] at hx
  | cons ioc rest ih =>
    intro seen x hx
    simp only [combineGo] at hx
    split at hx
    · rename_i hcond
      rcases List.mem_cons.mp hx with rfl | hmem
      · exact ⟨hcond.1, hcond.2⟩
      · have h2 := ih _ x hmem
        exact ⟨h2.1, fun hs => h2.2 (List.mem_cons_of_mem _ hs)⟩
    · exact ih _ x hx

theorem combineGo_nodup (l : List String) :
    ∀ seen, ((combineGo l seen).map pyKey).Nodup := by
  induction l with
  | nil => intro seen; simp [combineGo]
  | cons ioc rest ih =>
    intro seen
    simp only [combineGo]
    split
    · simp only [List.map_cons, List.nodup_cons]
      refine ⟨fun hmem => ?_, ih _⟩
      rcases List.mem_map.mp hmem with ⟨y, hy, hky⟩
      exact (combineGo_mem rest _ y hy).2 (by rw [hky]; exact List.mem_cons_self _ _)
    · exact ih _

theorem combineGo_first (l : List String) :
    ∀ seen x, x ∈ combineGo l seen →
      ∃ l1 l2, l = l1 ++ x :: l2 ∧ ∀ y ∈ l1, pyKey y ≠ pyKey x ∨ pyKey y ∈ seen := by
  induction l with
  | nil => intro seen x hx; simp [combineGo] at hx
  | cons ioc rest ih =>
    intro seen x hx
    simp only [combineGo] at hx
    split at hx
    · rename_i hcond
      rcases List.mem_cons.mp hx with rfl | hmem
      · exact ⟨[], rest, rfl, by simp⟩
      · obtain ⟨l1, l2, heq, hy⟩ := ih _ x hmem
        have hxk := (combineGo_mem rest _ x hmem).2
        refine ⟨ioc :: l1, l2, by rw [heq]; simp, ?_⟩
        intro y hyy
        rcases List.mem_cons.mp hyy with rfl | hmem2
        · exact Or.inl (fun hk =>
            hxk (by rw [← hk]; exact List.mem_cons_self _ _))
        · rcases hy y hmem2 with h | h
          · exact Or.inl h
          · rcases List.mem_cons.mp h with hk | hs
            · exact Or.inl (fun hkk =>
                hxk (by rw [← hkk, hk]; exact List.mem_cons_self _ _))
            · exact Or.inr hs
    · rename_i hcond
      obtain ⟨l1, l2, heq, hy⟩ := ih _ x hx
      have hxk := combineGo_mem rest seen x hx
      refine ⟨ioc :: l1, l2, by rw [heq]; simp, ?_⟩
      intro y hyy
      rcases List.mem_cons.mp hyy with rfl | hmem2
      · rcases not_and_or.mp hcond with hk0 | hks
        · push_neg at hk0
          exact Or.inl (fun hkk => hxk.1 (by rw [← hkk, hk0]))
        · exact Or.inr (not_not.mp hks)
      · exact hy y hmem2

theorem combineGo_complete (l : List String) :
    ∀ seen y, y ∈ l → pyKey y ≠ "" → pyKey y ∉ seen →
      ∃ x ∈ combineGo l seen, pyKey x = pyKey y := by
  induction l with
  | nil => intro seen y hy; simp at hy
  | cons ioc rest ih =>
    intro seen y hy hne hns
    simp only [combineGo]
    split
    · rcases List.mem_cons.mp hy with rfl | hmem
      · exact ⟨y, List.mem_cons_self _ _, rfl⟩
      · by_cases hk : pyKey y = pyKey ioc
        · exact ⟨ioc, List.mem_cons_self _ _, hk.symm⟩
        · obtain ⟨x, hx, hxk⟩ := ih (pyKey ioc :: seen) y hmem hne (by
            intro hmem2
            rcases List.mem_cons.mp hmem2 with h | h
            · exact hk h
            · exact hns h)
          exact ⟨x, List.mem_cons_of_mem _ hx, hxk⟩
    · rename_i hcond
      rcases List.mem_cons.mp hy with rfl | hmem
      · rcases not_and_or.mp hcond with hk0 | hks
        · exact absurd (not_not.mp (by simpa using hk0)) hne
        · exact absurd (not_not.mp hks) hns
      · exact ih seen y hmem hne hns

/-- C9: combine_iocs keeps a subsequence of known ++ osint (first-seen order
preserved), its entries have pairwise distinct non-empty case-fold+trim keys
(entries empty after trimming are dropped), each retained entry is the
first element of the concatenation bearing its key, and every non-empty key
occurring in the concatenation is represented. -/
theorem C9_combine (known osint : List String) :
    (combine_iocs known osint).Sublist (known ++ osint) ∧
    ((combine_iocs known osint).map pyKey).Nodup ∧
    (∀ x ∈ combine_iocs known osint, pyKey x ≠ "") ∧
    (∀ x ∈ combine_iocs known osint,
      ∃ l1 l2, known ++ osint = l1 ++ x :: l2 ∧ ∀ y ∈ l1, pyKey y ≠ pyKey x) ∧
    (∀ y ∈ known ++ osint, pyKey y ≠ "" →
      ∃ x ∈ combine_iocs known osint, pyKey x = pyKey y) := by
  refine ⟨combineGo_sublist _ [], combineGo_nodup _ [], ?_, ?_, ?_⟩
  · intro x hx
    exact (combineGo_mem _ [] x hx).1
  · intro x hx
    obtain ⟨l1, l2, heq, hy⟩ := combineGo_first _ [] x hx
    refine ⟨l1, l2, heq, fun y hyy => ?_⟩
    rcases hy y hyy with h | h
    · exact h
    · simp at h
  · intro y hy hne
    exact combineGo_complete _ [] y hy hne (by simp)

theorem C9_combine_witness :
    ("A" ∈ (["a"] ++ ["A"] : List String)) ∧
    (∃ x ∈ combine_iocs ["a"] ["A"], pyKey x = pyKey "A") :=
  ⟨by simp, (C9_combine ["a"] ["A"]).2.2.2.2 "A" (by simp) (by decide)⟩

/- ---------- C6: characterisation of the surviving rows ---------- -/

theorem dedupKeep_subset (lrows : List (List PyVal)) :
    ∀ (L : List Nat) (S : List (List PyVal)) (x : Nat),
      x ∈ dedupKeep lrows L S → x ∈ L := by
  intro L
  induction L with
  | nil => intro S x hx; simp [dedupKeep] at hx
  | cons a t ih =>
    intro S x hx
    simp only [dedupKeep] at hx
    split at hx
    · exact List.mem_cons_of_mem _ (ih _ x hx)
    · rcases List.mem_cons.mp hx with rfl | hmem
      · exact List.mem_cons_self _ _
      · exact List.mem_cons_of_mem _ (ih _ x hmem)

theorem dedupKeep_val_notmem (lrows : List (List PyVal)) :
    ∀ (L : List Nat) (S : List (List PyVal)) (x : Nat),
      x ∈ dedupKeep lrows L S → lrows.getD x [] ∉ S := by
  intro L
  induction L with
  | nil => intro S x hx; simp [dedupKeep] at hx
  | cons a t ih =>
    intro S x hx
    simp only [dedupKeep] at hx
    split at hx
    · exact ih _ x hx
    · rcases List.mem_cons.mp hx with rfl | hmem
      · assumption
      · exact fun hs => ih _ x hmem (List.mem_cons_of_mem _ hs)

theorem dedupKeep_pairwise (lrows : List (List PyVal)) :
    ∀ (L : List Nat) (S : List (List PyVal)),
      (dedupKeep lrows L S).Pairwise
        (fun a b => lrows.getD a [] ≠ lrows.getD b []) := by
  intro L
  induction L with
  | nil => intro S; simp [dedupKeep]
  | cons a t ih =>
    intro S
    simp only [dedupKeep]
    split
    · exact ih _
    · refine List.pairwise_cons.mpr ⟨fun b hb hval => ?_, ih _⟩
      exact dedupKeep_val_notmem lrows t _ b hb (by rw [← hval]; exact List.mem_cons_self _ _)

/-- drop_duplicates keeps a listed row whenever no earlier listed row carries
the same value and the value is not already recorded. -/
theorem dedupKeep_of (lrows : List (List PyVal)) :
    ∀ (L1 : List Nat) (L2 : List Nat) (S : List (List PyVal)) (x : Nat),
      lrows.getD x [] ∉ S →
      (∀ y ∈ L1, lrows.getD y [] ≠ lrows.getD x []) →
      x ∈ dedupKeep lrows (L1 ++ x :: L2) S := by
  intro L1
  induction L1 with
  | nil =>
    intro L2 S x hS _
    simp only [List.nil_append, dedupKeep]
    split
    · exact absurd (by assumption) hS
    · exact List.mem_cons_self _ _
  | cons a t ih =>
    intro L2 S x hS hy
    simp only [List.cons_append, dedupKeep]
    split
    · exact ih L2 S x hS (fun y hmem => hy y (List.mem_cons_of_mem _ hmem))
    · refine List.mem_cons_of_mem _ (ih L2 _ x ?_ (fun y hmem => hy y (List.mem_cons_of_mem _ hmem)))
      intro hmem
      rcases List.mem_cons.mp hmem with h | h
      · exact hy a (List.mem_cons_self _ _) h.symm
      · exact hS h

/-- Splitting a strictly sorted list at a member: everything before it is
smaller. -/
theorem sorted_split {l : List Nat} (hl : l.Pairwise (· < ·)) {r : Nat}
    (hr : r ∈ l) : ∃ l1 l2, l = l1 ++ r :: l2 ∧ ∀ y ∈ l1, y < r := by
  induction l with
  | nil => simp at hr
  | cons a t ih =>
    rcases List.mem_cons.mp hr with rfl | hmem
    · exact ⟨[], t, rfl, by simp⟩
    · obtain ⟨l1, l2, heq, hlt⟩ := ih (List.Pairwise.of_cons hl) hmem
      refine ⟨a :: l1, l2, by rw [heq]; simp, ?_⟩
      intro y hyy
      rcases List.mem_cons.mp hyy with rfl | h2
      · exact (List.pairwise_cons.mp hl).1 r hmem
      · exact hlt y h2

theorem mem_exactIdxs (lrows : List (List PyVal)) (c : Nat) (key : String) (r : Nat) :
    r ∈ exactIdxs lrows c key ↔
      r < lrows.length ∧ cellEqStr (colCell lrows r c) key = true := by
  simp [exactIdxs, List.mem_filter, List.mem_range, and_comm]

theorem mem_containIdxs (lrows : List (List PyVal)) (c : Nat) (key : String) (r : Nat) :
    r ∈ containIdxs lrows c key ↔
      r < lrows.length ∧ cellContainsStr (colCell lrows r c) key = true := by
  simp [containIdxs, List.mem_filter, List.mem_range, and_comm]

theorem exactIdxs_sorted (lrows : List (List PyVal)) (c : Nat) (key : String) :
    (exactIdxs lrows c key).Pairwise (· < ·) :=
  (List.pairwise_lt_range _).filter _

theorem containIdxs_sorted (lrows : List (List PyVal)) (c : Nat) (key : String) :
    (containIdxs lrows c key).Pairwise (· < ·) :=
  (List.pairwise_lt_range _).filter _

/-- The cell inspected by the match predicates is a projection of the row
value, so rows with identical content satisfy the same predicates. -/
theorem colCell_congr (lrows : List (List PyVal)) {r1 r2 : Nat} (c : Nat)
    (h : lrows.getD r1 [] = lrows.getD r2 []) :
    colCell lrows r1 c = colCell lrows r2 c := by
  simp only [colCell, h]

/-- The rows surviving drop_duplicates for one (ioc, column) pair are
exactly the matching rows whose full (case-folded) content does not repeat
an earlier row's content. -/
theorem mem_keptRows (lrows : List (List PyVal)) (c : Nat) (key : String) (r : Nat) :
    r ∈ keptRows lrows c key ↔
      ((cellEqStr (colCell lrows r c) key = true ∨
        cellContainsStr (colCell lrows r c) key = true) ∧
       r < lrows.length ∧
       ∀ r2 < r, lrows.getD r2 [] ≠ lrows.getD r []) := by
  constructor
  · intro h
    have hsub := dedupKeep_subset lrows _ _ _ h
    have hmatch : (cellEqStr (colCell lrows r c) key = true ∨
        cellContainsStr (colCell lrows r c) key = true) ∧ r < lrows.length := by
      rcases List.mem_append.mp hsub with hx | hx
      · have := (mem_exactIdxs lrows c key r).mp hx
        exact ⟨Or.inl this.2, this.1⟩
      · have := (mem_containIdxs lrows c key r).mp hx
        exact ⟨Or.inr this.2, this.1⟩
    refine ⟨hmatch.1, hmatch.2, ?_⟩
    by_contra hdup
    push_neg at hdup
    obtain ⟨r2, hr2lt, hr2eq⟩ := hdup
    have hex : ∃ k, lrows.getD k [] = lrows.getD r [] := ⟨r2, hr2eq⟩
    set r0 := Nat.find hex with hr0def
    have hP0 : lrows.getD r0 [] = lrows.getD r [] := Nat.find_spec hex
    have hr0le : r0 ≤ r2 := Nat.find_min' hex hr2eq
    have hr0lt : r0 < r := lt_of_le_of_lt hr0le hr2lt
    have hr0n : r0 < lrows.length := lt_trans hr0lt hmatch.2
    have hcell0 : colCell lrows r0 c = colCell lrows r c := colCell_congr lrows c hP0
    have hmin : ∀ k < r0, lrows.getD k [] ≠ lrows.getD r0 [] := by
      intro k hk hkeq
      exact Nat.find_min hex hk (by rw [hkeq, hP0])
    have hkept0 : r0 ∈ keptRows lrows c key := by
      by_cases h0 : r0 ∈ exactIdxs lrows c key
      · obtain ⟨E1, E2, heq, hlt⟩ := sorted_split (exactIdxs_sorted lrows c key) h0
        have hdecomp : exactIdxs lrows c key ++ containIdxs lrows c key =
            E1 ++ r0 :: (E2 ++ containIdxs lrows c key) := by
          rw [heq]; simp
        rw [keptRows, hdecomp]
        exact dedupKeep_of lrows E1 _ [] r0 (by simp)
          (fun y hy hyeq => hmin y (hlt y hy) hyeq)
      · have hcont0 : r0 ∈ containIdxs lrows c key := by
          rcases hmatch.1 with hcE | hcC
          · exact absurd ((mem_exactIdxs lrows c key r0).mpr
              ⟨hr0n, by rw [hcell0]; exact hcE⟩) h0
          · exact (mem_containIdxs lrows c key r0).mpr ⟨hr0n, by rw [hcell0]; exact hcC⟩
        obtain ⟨P1, P2, heq, hlt⟩ := sorted_split (containIdxs_sorted lrows c key) hcont0
        have hdecomp : exactIdxs lrows c key ++ containIdxs lrows c key =
            (exactIdxs lrows c key ++ P1) ++ r0 :: P2 := by
          rw [heq]; simp
        rw [keptRows, hdecomp]
        refine dedupKeep_of lrows _ _ [] r0 (by simp) ?_
        intro y hy hyeq
        rcases List.mem_append.mp hy with hyE | hyP
        · have hyex := (mem_exactIdxs lrows c key y).mp hyE
          exact h0 ((mem_exactIdxs lrows c key r0).mpr
            ⟨hr0n, by rw [← colCell_congr lrows c hyeq]; exact hyex.2⟩)
        · exact hmin y (hlt y hyP) hyeq
    have hne : r0 ≠ r := Nat.ne_of_lt hr0lt
    have hpw := dedupKeep_pairwise lrows
      (exactIdxs lrows c key ++ containIdxs lrows c key) []
    have hsymm : Symmetric (fun a b : Nat => lrows.getD a [] ≠ lrows.getD b []) :=
      fun a b h hab => h hab.symm
    exact (hpw.forall hsymm hkept0 h hne) hP0
  · rintro ⟨hm, hlt, hnd⟩
    by_cases hcE : cellEqStr (colCell lrows r c) key = true
    · have hex : r ∈ exactIdxs lrows c key := (mem_exactIdxs lrows c key r).mpr ⟨hlt, hcE⟩
      obtain ⟨E1, E2, heq, hltE⟩ := sorted_split (exactIdxs_sorted lrows c key) hex
      have hdecomp : exactIdxs lrows c key ++ containIdxs lrows c key =
          E1 ++ r :: (E2 ++ containIdxs lrows c key) := by
        rw [heq]; simp
      rw [keptRows, hdecomp]
      exact dedupKeep_of lrows E1 _ [] r (by simp)
        (fun y hy hyeq => hnd y (hltE y hy) hyeq)
    · have hcC : cellContainsStr (colCell lrows r c) key = true := by
        rcases hm with h | h
        · exact absurd h hcE
        · exact h
      have hpa : r ∈ containIdxs lrows c key := (mem_containIdxs lrows c key r).mpr ⟨hlt, hcC⟩
      obtain ⟨P1, P2, heq, hltP⟩ := sorted_split (containIdxs_sorted lrows c key) hpa
      have hdecomp : exactIdxs lrows c key ++ containIdxs lrows c key =
          (exactIdxs lrows c key ++ P1) ++ r :: P2 := by
        rw [heq]; simp
      rw [keptRows, hdecomp]
      refine dedupKeep_of lrows _ _ [] r (by simp) ?_
      intro y hy hyeq
      rcases List.mem_append.mp hy with hyE | hyP
      · have hyex := (mem_exactIdxs lrows c key y).mp hyE
        exact hcE (by rw [← colCell_congr lrows c hyeq]; exact hyex.2)
      · exact hnd y (hltP y hyP) hyeq

theorem keptRows_nodup (lrows : List (List PyVal)) (c : Nat) (key : String) :
    (keptRows lrows c key).Nodup := by
  have hpw := dedupKeep_pairwise lrows
    (exactIdxs lrows c key ++ containIdxs lrows c key) []
  exact hpw.imp (fun hval heq => hval (by rw [heq]))

/- ---------- C6: error-free evaluation on all-textual DataFrames ---------- -/

/-- The value search_dataframe produces for one indicator across the columns
when no column aborts the scan. -/
def pureCols (src ioc key : String) (lrows : List (List PyVal)) :
    Nat → List (String × DType) → List IocMatch
| _, [] => []
| c, (nm, _) :: rest =>
  (keptRows lrows c key).map (mkMatch src ioc key nm lrows c) ++
    pureCols src ioc key lrows (c + 1) rest

/-- The value search_dataframe produces across the indicator list when no
column aborts the scan. -/
def pureIocs (src : String) (lrows : List (List PyVal))
    (cols : List (String × DType)) : List String → List IocMatch
| [] => []
| ioc :: rest =>
  (if pyKey ioc = "" then []
   else pureCols src ioc (pyKey ioc) lrows 0 cols) ++ pureIocs src lrows cols rest

theorem searchColsFrom_obj (src ioc key : String) (lrows : List (List PyVal)) :
    ∀ (cs : List (String × DType)) (k : Nat), (∀ p ∈ cs, p.2 = DType.obj) →
      searchColsFrom src ioc key lrows k cs = .ok (pureCols src ioc key lrows k cs) := by
  intro cs
  induction cs with
  | nil => intro k _; rfl
  | cons p rest ih =>
    intro k hobj
    obtain ⟨nm, dt⟩ := p
    have hdt : dt = DType.obj := hobj (nm, dt) (List.mem_cons_self _ _)
    subst hdt
    simp only [searchColsFrom, searchIocCol, pureCols]
    rw [ih (k + 1) (fun q hq => hobj q (List.mem_cons_of_mem _ hq))]
    rfl

theorem searchIocs_obj (src : String) (lrows : List (List PyVal))
    (cols : List (String × DType)) (hobj : ∀ p ∈ cols, p.2 = DType.obj) :
    ∀ iocs : List String,
      searchIocs src lrows cols iocs = .ok (pureIocs src lrows cols iocs) := by
  intro iocs
  induction iocs with
  | nil => rfl
  | cons ioc rest ih =>
    by_cases h : pyKey ioc = ""
    · simp only [searchIocs, pureIocs, if_pos h]
      rw [ih]
      simp
    · simp only [searchIocs, pureIocs, if_neg h]
      rw [searchColsFrom_obj src ioc (pyKey ioc) lrows cols 0 hobj, ih]
      rfl

theorem search_dataframe_obj (iocs : List String) (df : PandasDF) (src : String)
    (hobj : ∀ dt ∈ df.dtypes, dt = DType.obj) :
    search_dataframe iocs df src =
      .ok (pureIocs src (lowerRowsOf df) (df.colNames.zip df.dtypes) iocs) := by
  refine searchIocs_obj src (lowerRowsOf df) _ ?_ iocs
  intro p hp
  exact hobj p.2 (List.of_mem_zip hp).2

theorem pureCols_mem (src ioc key : String) (lrows : List (List PyVal)) :
    ∀ (cs : List (String × DType)) (k : Nat) (m : IocMatch),
      m ∈ pureCols src ioc key lrows k cs →
      m.ioc = ioc ∧ m.column ∈ cs.map Prod.fst := by
  intro cs
  induction cs with
  | nil => intro k m hm; simp [pureCols] at hm
  | cons p rest ih =>
    intro k m hm
    obtain ⟨nm, dt⟩ := p
    simp only [pureCols] at hm
    rcases List.mem_append.mp hm with h | h
    · rcases List.mem_map.mp h with ⟨r, _, rfl⟩
      exact ⟨rfl, by simp [mkMatch]⟩
    · have := ih (k + 1) m h
      exact ⟨this.1, List.mem_cons_of_mem _ this.2⟩

theorem pureIocs_mem (src : String) (lrows : List (List PyVal))
    (cols : List (String × DType)) :
    ∀ (iocs : List String) (m : IocMatch),
      m ∈ pureIocs src lrows cols iocs → m.ioc ∈ iocs := by
  intro iocs
  induction iocs with
  | nil => intro m hm; simp [pureIocs] at hm
  | cons ioc rest ih =>
    intro m hm
    simp only [pureIocs] at hm
    rcases List.mem_append.mp hm with h | h
    · split at h
      · simp at h
      · exact (pureCols_mem src ioc (pyKey ioc) lrows cols 0 m h).1 ▸
          List.mem_cons_self _ _
    · exact List.mem_cons_of_mem _ (ih m h)

/- ---------- C6: counting the matches of one (indicator, column, row) ---------- -/

/-- Selects the Match records of one (indicator, column, row) combination. -/
def matchSel (i nm : String) (r : Nat) (m : IocMatch) : Bool :=
  m.ioc == i && m.column == nm && m.rowIndex == r

theorem filter_beq_of_nodup {l : List Nat} (hl : l.Nodup) (r : Nat) :
    l.filter (fun x => x == r) = if r ∈ l then [r] else [] := by
  induction l with
  | nil => simp
  | cons a t ih =>
    rcases List.nodup_cons.mp hl with ⟨hna, hnd⟩
    by_cases ha : a = r
    · subst ha
      rw [if_pos (List.mem_cons_self a t)]
      have hstep : (a :: t).filter (fun x => x == a) = a :: t.filter (fun x => x == a) := by
        simp [List.filter_cons]
      rw [hstep, ih hnd, if_neg hna]
    · simp only [List.filter_cons]
      rw [if_neg (by simp [ha]), ih hnd]
      by_cases hmem : r ∈ t
      · rw [if_pos hmem, if_pos (List.mem_cons_of_mem _ hmem)]
      · rw [if_neg hmem, if_neg (by simp [Ne.symm ha, hmem])]

theorem block_filter (src i key nm : String) (lrows : List (List PyVal)) (c r : Nat) :
    ((keptRows lrows c key).map (mkMatch src i key nm lrows c)).filter (matchSel i nm r) =
      if r ∈ keptRows lrows c key then [mkMatch src i key nm lrows c r] else [] := by
  have hcomp : ∀ x : Nat, matchSel i nm r (mkMatch src i key nm lrows c x) = (x == r) := by
    intro x
    simp [matchSel, mkMatch]
  rw [List.filter_map]
  have : ((keptRows lrows c key).filter (matchSel i nm r ∘ mkMatch src i key nm lrows c)) =
      (keptRows lrows c key).filter (fun x => x == r) := by
    apply List.filter_congr
    intro x _
    exact hcomp x
  rw [this, filter_beq_of_nodup (keptRows_nodup lrows c key) r]
  by_cases hmem : r ∈ keptRows lrows c key
  · rw [if_pos hmem, if_pos hmem]
    rfl
  · rw [if_neg hmem, if_neg hmem]
    rfl

theorem block_filter_ne (src i key nm nm2 : String) (lrows : List (List PyVal))
    (c r : Nat) (h : nm2 ≠ nm) :
    ((keptRows lrows c key).map (mkMatch src i key nm2 lrows c)).filter
      (matchSel i nm r) = [] := by
  apply List.filter_eq_nil_iff.mpr
  intro m hm
  rcases List.mem_map.mp hm with ⟨x, _, rfl⟩
  simp [matchSel, mkMatch, h]

theorem pureCols_append (src i key : String) (lrows : List (List PyVal)) :
    ∀ (cs1 cs2 : List (String × DType)) (k : Nat),
      pureCols src i key lrows k (cs1 ++ cs2) =
        pureCols src i key lrows k cs1 ++ pureCols src i key lrows (k + cs1.length) cs2 := by
  intro cs1
  induction cs1 with
  | nil => intro cs2 k; simp [pureCols]
  | cons p rest ih =>
    intro cs2 k
    obtain ⟨nm, dt⟩ := p
    have hk : k + 1 + rest.length = k + (rest.length + 1) := by omega
    simp only [List.cons_append, pureCols, List.length_cons, List.append_eq]
    rw [ih cs2 (k + 1), hk, List.append_assoc]

theorem pureCols_filter_none (src i key nm : String) (lrows : List (List PyVal)) (r : Nat) :
    ∀ (cs : List (String × DType)) (k : Nat), (∀ p ∈ cs, p.1 ≠ nm) →
      (pureCols src i key lrows k cs).filter (matchSel i nm r) = [] := by
  intro cs
  induction cs with
  | nil => intro k _; rfl
  | cons p rest ih =>
    intro k hne
    obtain ⟨nm2, dt⟩ := p
    simp only [pureCols, List.filter_append]
    rw [block_filter_ne src i key nm nm2 lrows k r
      (hne (nm2, dt) (List.mem_cons_self _ _)),
      ih (k + 1) (fun q hq => hne q (List.mem_cons_of_mem _ hq))]
    rfl

theorem pureCols_filter_split (src i key nm : String) (dt : DType)
    (lrows : List (List PyVal)) (r : Nat)
    (cs1 cs2 : List (String × DType)) (k : Nat)
    (h1 : ∀ p ∈ cs1, p.1 ≠ nm) (h2 : ∀ p ∈ cs2, p.1 ≠ nm) :
    (pureCols src i key lrows k (cs1 ++ (nm, dt) :: cs2)).filter (matchSel i nm r) =
      if r ∈ keptRows lrows (k + cs1.length) key
      then [mkMatch src i key nm lrows (k + cs1.length) r] else [] := by
  rw [pureCols_append, List.filter_append, pureCols_filter_none src i key nm lrows r cs1 k h1]
  simp only [pureCols, List.filter_append]
  rw [block_filter src i key nm lrows (k + cs1.length) r,
    pureCols_filter_none src i key nm lrows r cs2 (k + cs1.length + 1) h2]
  simp

theorem pureIocs_filter (src : String) (lrows : List (List PyVal))
    (cols : List (String × DType)) (i nm : String) (r : Nat) :
    ∀ iocs : List String, iocs.Nodup → i ∈ iocs →
      (pureIocs src lrows cols iocs).filter (matchSel i nm r) =
        (if pyKey i = "" then []
         else (pureCols src i (pyKey i) lrows 0 cols).filter (matchSel i nm r)) := by
  intro iocs
  induction iocs with
  | nil => intro _ hi; simp at hi
  | cons ioc rest ih =>
    intro hnd hi
    rcases List.nodup_cons.mp hnd with ⟨hnotin, hndr⟩
    simp only [pureIocs, List.filter_append]
    rcases List.mem_cons.mp hi with rfl | hmem
    · have hrest : (pureIocs src lrows cols rest).filter (matchSel i nm r) = [] := by
        apply List.filter_eq_nil_iff.mpr
        intro m hm
        have := pureIocs_mem src lrows cols rest m hm
        simp only [matchSel, Bool.not_eq_true, Bool.and_eq_true, beq_iff_eq]
        intro hc
        exact hnotin (hc.1.1 ▸ this)
      rw [hrest]
      by_cases hkey : pyKey i = ""
      · simp [hkey]
      · simp [hkey]
    · have hi2 : i ≠ ioc := fun h => hnotin (h ▸ hmem)
      have hblock : ((if pyKey ioc = "" then []
          else pureCols src ioc (pyKey ioc) lrows 0 cols).filter (matchSel i nm r)) = [] := by
        split
        · rfl
        · apply List.filter_eq_nil_iff.mpr
          intro m hm
          have := (pureCols_mem src ioc (pyKey ioc) lrows cols 0 m hm).1
          simp only [matchSel, Bool.not_eq_true, Bool.and_eq_true, beq_iff_eq]
          intro hc
          exact hi2 (hc.1.1 ▸ this ▸ rfl)
      rw [hblock, ih hndr hmem]
      simp

/- ---------- C6: assembling the amended statement ---------- -/

theorem zip_split_at (names : List String) (dts : List DType) (c : Nat)
    (hc : c < names.length) (hlen : dts.length = names.length) :
    names.zip dts =
      ((names.take c).zip (dts.take c)) ++
        (names.getD c "", dts.getD c DType.obj) ::
        ((names.drop (c + 1)).zip (dts.drop (c + 1))) := by
  have hcd : c < dts.length := by rw [hlen]; exact hc
  conv_lhs =>
    rw [show names = names.take c ++ names.drop c from (List.take_append_drop c names).symm,
      show dts = dts.take c ++ dts.drop c from (List.take_append_drop c dts).symm]
  rw [List.zip_append (by rw [List.length_take, List.length_take]; omega)]
  congr 1
  rw [List.drop_eq_getElem_cons hc, List.drop_eq_getElem_cons hcd, List.zip_cons_cons,
    List.getD_eq_getElem names "" hc, List.getD_eq_getElem dts DType.obj hcd]

theorem nodup_take_drop {names : List String} (hnd : names.Nodup) {c : Nat}
    (hc : c < names.length) :
    names.getD c "" ∉ names.take c ∧ names.getD c "" ∉ names.drop (c + 1) := by
  have h := hnd
  rw [show names = names.take c ++ names.drop c from (List.take_append_drop c names).symm,
    List.drop_eq_getElem_cons hc] at h
  rcases List.nodup_append.mp h with ⟨_, h2, hdisj⟩
  rw [List.getD_eq_getElem names "" hc]
  exact ⟨fun hmem => hdisj hmem (List.mem_cons_self _ _),
    (List.nodup_cons.mp h2).1⟩

/-- C6 amended: over a Dataset with all-textual, distinctly named columns and
a duplicate-free indicator list, search_dataframe succeeds and each
(indicator, column, row) combination yields exactly one Match when the cell
matches exactly or by containment AND the row's case-folded content does not
duplicate an earlier row's (a duplicate row yields none); that single Match
is the explicit record whose match_kind is exact precisely when the cell
equals the normalised indicator. -/
theorem C6_amended (df : PandasDF) (iocs : List String) (src : String)
    (hobj : ∀ dt ∈ df.dtypes, dt = DType.obj)
    (hlen : df.dtypes.length = df.colNames.length)
    (hiocs : iocs.Nodup) (hcols : df.colNames.Nodup) :
    ∃ ms, search_dataframe iocs df src = .ok ms ∧
      (∀ i ∈ iocs, ∀ c, c < df.colNames.length → ∀ r : Nat,
        ms.filter (matchSel i (df.colNames.getD c "") r) =
          (if pyKey i ≠ "" ∧
              (cellEqStr (colCell (lowerRowsOf df) r c) (pyKey i) = true ∨
                cellContainsStr (colCell (lowerRowsOf df) r c) (pyKey i) = true) ∧
              r < df.rows.length ∧
              (∀ r2 < r, (lowerRowsOf df).getD r2 [] ≠ (lowerRowsOf df).getD r [])
            then [mkMatch src i (pyKey i) (df.colNames.getD c "") (lowerRowsOf df) c r]
            else [])) ∧
      (∀ i : String, ∀ c r : Nat, r < df.rows.length →
        (mkMatch src i (pyKey i) (df.colNames.getD c "") (lowerRowsOf df) c r).matchType =
          (if cellEqStr (colCell (lowerRowsOf df) r c) (pyKey i) = true
            then "exact" else "partial")) := by
  have hlrows : (lowerRowsOf df).length = df.rows.length := by
    simp [lowerRowsOf]
  refine ⟨_, search_dataframe_obj iocs df src hobj, ?_, ?_⟩
  · intro i hi c hc r
    rw [pureIocs_filter src (lowerRowsOf df) (df.colNames.zip df.dtypes)
      i (df.colNames.getD c "") r iocs hiocs hi]
    by_cases hkey : pyKey i = ""
    · rw [if_pos hkey, if_neg (fun h => h.1 hkey)]
    · rw [if_neg hkey]
      obtain ⟨hnm1, hnm2⟩ := nodup_take_drop hcols hc
      have h1cond : ∀ p ∈ (df.colNames.take c).zip (df.dtypes.take c),
          p.1 ≠ df.colNames.getD c "" := by
        intro p hp heq
        exact hnm1 (heq ▸ (List.of_mem_zip hp).1)
      have h2cond : ∀ p ∈ (df.colNames.drop (c + 1)).zip (df.dtypes.drop (c + 1)),
          p.1 ≠ df.colNames.getD c "" := by
        intro p hp heq
        exact hnm2 (heq ▸ (List.of_mem_zip hp).1)
      rw [zip_split_at df.colNames df.dtypes c hc hlen,
        pureCols_filter_split src i (pyKey i) (df.colNames.getD c "")
          (df.dtypes.getD c DType.obj) (lowerRowsOf df) r _ _ 0 h1cond h2cond]
      have hlen2 : ((df.colNames.take c).zip (df.dtypes.take c)).length = c := by
        rw [List.length_zip, List.length_take, List.length_take]
        omega
      rw [hlen2, Nat.zero_add]
      by_cases hmem : r ∈ keptRows (lowerRowsOf df) c (pyKey i)
      · obtain ⟨hm, hlt, hnd⟩ := (mem_keptRows (lowerRowsOf df) c (pyKey i) r).mp hmem
        rw [if_pos hmem, if_pos ⟨hkey, hm, by rw [← hlrows]; exact hlt, hnd⟩]
      · rw [if_neg hmem, if_neg (fun hcond =>
          hmem ((mem_keptRows (lowerRowsOf df) c (pyKey i) r).mpr
            ⟨hcond.2.1, by rw [hlrows]; exact hcond.2.2.1, hcond.2.2.2⟩))]
  · intro i c r hr
    simp only [mkMatch]
    by_cases hcE : cellEqStr (colCell (lowerRowsOf df) r c) (pyKey i) = true
    · rw [if_pos ((mem_exactIdxs (lowerRowsOf df) c (pyKey i) r).mpr
        ⟨by rw [hlrows]; exact hr, hcE⟩), if_pos hcE]
    · rw [if_neg (fun hm =>
        hcE ((mem_exactIdxs (lowerRowsOf df) c (pyKey i) r).mp hm).2), if_neg hcE]

theorem C6_amended_witness :
    (∀ dt ∈ dfDup.dtypes, dt = DType.obj) ∧
    dfDup.dtypes.length = dfDup.colNames.length ∧
    (["payload.exe"] : List String).Nodup ∧
    dfDup.colNames.Nodup ∧
    (∃ ms, search_dataframe ["payload.exe"] dfDup "files" = .ok ms ∧
      (∀ i ∈ ["payload.exe"], ∀ c, c < dfDup.colNames.length → ∀ r : Nat,
        ms.filter (matchSel i (dfDup.colNames.getD c "") r) =
          (if pyKey i ≠ "" ∧
              (cellEqStr (colCell (lowerRowsOf dfDup) r c) (pyKey i) = true ∨
                cellContainsStr (colCell (lowerRowsOf dfDup) r c) (pyKey i) = true) ∧
              r < dfDup.rows.length ∧
              (∀ r2 < r, (lowerRowsOf dfDup).getD r2 [] ≠ (lowerRowsOf dfDup).getD r [])
            then [mkMatch "files" i (pyKey i) (dfDup.colNames.getD c "")
                    (lowerRowsOf dfDup) c r]
            else [])) ∧
      (∀ i : String, ∀ c r : Nat, r < dfDup.rows.length →
        (mkMatch "files" i (pyKey i) (dfDup.colNames.getD c "")
            (lowerRowsOf dfDup) c r).matchType =
          (if cellEqStr (colCell (lowerRowsOf dfDup) r c) (pyKey i) = true
            then "exact" else "partial"))) :=
  ⟨by decide, by decide, by decide, by decide,
    C6_amended dfDup ["payload.exe"] "files" (by decide) (by decide) (by decide) (by decide)⟩
